import Mathlib

/-!
Verification development for the core of `survey_subsampling/subsample.py`.

The embedding covers: the per-diagnosis class-count prelude of `fit_models`
and its feature-importance aggregation; the ranking computations of
`calculate_feature_importance` (top slices, the consistency report, and the
fused ordering built from `np.where` position matching and `np.argsort`);
and the prefix construction, task submission, and completion-order result
collection of `degrading_fit`.  Feature identifiers are embedded
generically over a type with decidable equality; numeric importance scores
are embedded as rationals; Python exceptions are embedded as `Option`
results (`none` at exactly the points where the Python code raises).
-/

namespace SurveySubsampling

/-! ### General list helpers -/

theorem map_getD_range {α : Type} (l : List α) (d : α) :
    (List.range l.length).map (fun i => l.getD i d) = l := by
  induction l with
  | nil => rfl
  | cons a t ih =>
    rw [List.length_cons, List.range_succ_eq_map, List.map_cons, List.map_map]
    simp only [List.getD_cons_zero]
    have hfun : (List.range t.length).map ((fun i => (a :: t).getD i d) ∘ Nat.succ)
        = (List.range t.length).map (fun i => t.getD i d) := by
      apply List.map_congr_left
      intro i _
      rfl
    rw [hfun, ih]

theorem getD_map_range {β : Type} (f : Nat → β) {n k : Nat} (h : k < n) (d : β) :
    ((List.range n).map f).getD k d = f k := by
  have hlen : k < ((List.range n).map f).length := by simpa using h
  rw [List.getD_eq_getElem?_getD, List.getElem?_eq_getElem hlen]
  simp

theorem sum_map_add {α : Type} (l : List α) (f g : α → ℚ) :
    (l.map (fun x => f x + g x)).sum = (l.map f).sum + (l.map g).sum := by
  induction l with
  | nil => simp
  | cons a t ih => simp [ih]; ring

theorem sum_map_div {α : Type} (l : List α) (f : α → ℚ) (c : ℚ) :
    (l.map (fun x => f x / c)).sum = (l.map f).sum / c := by
  induction l with
  | nil => simp
  | cons a t ih => simp [ih]; ring

theorem flatten_perm_of_perm {α : Type} {l₁ l₂ : List (List α)} (h : l₁.Perm l₂) :
    l₁.flatten.Perm l₂.flatten := by
  induction h with
  | nil => rfl
  | cons x _ ih => simpa using ih.append_left x
  | swap x y l =>
    simp only [List.flatten_cons]
    rw [← List.append_assoc, ← List.append_assoc]
    exact List.perm_append_comm.append_right _
  | trans _ _ ih₁ ih₂ => exact ih₁.trans ih₂

/-! ### Degradation sweep (`degrading_fit`, subsample.py lines 235-268) -/

/-- The feature subsets submitted by `degrading_fit` (lines 249-251): for
`n_questions` in `range(len(sorted_x_ids))[::-1]`, the submitted feature set
is `sorted_x_ids[0:n_questions+1]`. -/
def degradingSubsets {α : Type} (sorted_x_ids : List α) : List (List α) :=
  ((List.range sorted_x_ids.length).reverse).map
    (fun n_questions => sorted_x_ids.take (n_questions + 1))

/-- One model-fitting invocation is submitted per subset (line 255). -/
def degradingFitTasks {α β : Type} (fit : List α → β) (sorted_x_ids : List α) : List β :=
  (degradingSubsets sorted_x_ids).map fit

/-- Collection of per-task summary rows in completion order followed by
concatenation (lines 258-266); `completionOrder` lists the task indices in
the order `as_completed` yields them. -/
def sweepSummaryRows {α β : Type} (fitSummary : List α → List β) (sorted_x_ids : List α)
    (completionOrder : List Nat) : List β :=
  (completionOrder.map
    (fun i => fitSummary ((degradingSubsets sorted_x_ids).getD i []))).flatten

/-- C6: for every non-empty ranked feature list of length `n`, the
degradation sweep submits exactly `n` model-fitting invocations, one for
each prefix length from `n` down to `1`, the subset at sweep position `i`
being exactly the first `n - i` elements of the ranked list; consecutive
subsets are strict prefixes of one another, and over a 3-feature ranking
the sweep produces exactly 3 result records. -/
theorem degrading_fit_prefix_sweep {α β : Type} (l : List α) (hne : l ≠ []) :
    (degradingSubsets l).length = l.length ∧
    (∀ i, i < l.length → (degradingSubsets l).getD i [] = l.take (l.length - i)) ∧
    (∀ i, i < l.length → ((degradingSubsets l).getD i []).length = l.length - i) ∧
    (∀ k, k < l.length → l.take k <+: l.take (k + 1) ∧ l.take k ≠ l.take (k + 1)) ∧
    (∀ fit : List α → β, (degradingFitTasks fit l).length = l.length) := by
  have hidx : ∀ i, i < l.length → (degradingSubsets l).getD i [] = l.take (l.length - i) := by
    intro i hi
    have hlen : i < (degradingSubsets l).length := by
      simpa [degradingSubsets] using hi
    rw [List.getD_eq_getElem?_getD, List.getElem?_eq_getElem hlen]
    simp only [degradingSubsets, List.getElem_map, List.getElem_reverse, List.getElem_range,
      List.length_range, Option.getD_some]
    congr 1
    have : i < l.length := hi
    omega
  refine ⟨by simp [degradingSubsets], hidx, ?_, ?_, ?_⟩
  · intro i hi
    rw [hidx i hi]
    simp only [List.length_take]
    omega
  · intro k hk
    constructor
    · have h1 : (l.take (k + 1)).take k = l.take k := by
        rw [List.take_take]
        congr 1
        omega
      have h2 := List.take_prefix k (l.take (k + 1))
      rwa [h1] at h2
    · intro heq
      have hlen := congrArg List.length heq
      simp only [List.length_take] at hlen
      omega
  · intro fit
    simp [degradingFitTasks, degradingSubsets]

theorem degrading_fit_prefix_sweep_witness :
    (([10, 20, 30] : List Nat) ≠ []) ∧
    ((degradingSubsets ([10, 20, 30] : List Nat)).length = ([10, 20, 30] : List Nat).length ∧
    (∀ i, i < ([10, 20, 30] : List Nat).length →
      (degradingSubsets ([10, 20, 30] : List Nat)).getD i []
        = ([10, 20, 30] : List Nat).take (([10, 20, 30] : List Nat).length - i)) ∧
    (∀ i, i < ([10, 20, 30] : List Nat).length →
      ((degradingSubsets ([10, 20, 30] : List Nat)).getD i []).length
        = ([10, 20, 30] : List Nat).length - i) ∧
    (∀ k, k < ([10, 20, 30] : List Nat).length →
      ([10, 20, 30] : List Nat).take k <+: ([10, 20, 30] : List Nat).take (k + 1) ∧
      ([10, 20, 30] : List Nat).take k ≠ ([10, 20, 30] : List Nat).take (k + 1)) ∧
    (∀ fit : List Nat → Nat,
      (degradingFitTasks fit ([10, 20, 30] : List Nat)).length
        = ([10, 20, 30] : List Nat).length)) :=
  ⟨by decide, @degrading_fit_prefix_sweep Nat Nat [10, 20, 30] (by decide)⟩

/-! ### Global effects of `fit_models` (subsample.py lines 96-193) -/

/-- Process-wide mutable state visible to `fit_models`: the global NumPy
random-number-generator state and the text written to standard output. -/
structure PyGlobalState where
  npRandomState : Nat
  stdoutLines : List String
deriving DecidableEq

/-- `np.random.seed(s)`: resets the global NumPy RNG to the state
determined by seed `s`. -/
def npRandomSeed (s : Nat) (g : PyGlobalState) : PyGlobalState :=
  { g with npRandomState := s }

/-- Consuming draws from the global NumPy RNG advances its state by a
function of the current state. -/
def npRandomDraw (advance : Nat → Nat) (g : PyGlobalState) : PyGlobalState :=
  { g with npRandomState := advance g.npRandomState }

/-- Global effects of a `fit_models` call: line 104 executes
`np.random.seed(42)`, resetting the process-wide NumPy RNG to the seed-42
state, after which the forest and calibration fits — the classifier is
constructed with `random_state=None` at line 98 — draw from and advance
that same global generator.  `fitDraws` abstracts the state advance those
draws perform; it is a function of the post-seed state (and of the fitting
work, fixed for a given call), not of the pre-call state.  Nothing is
printed and no file I/O occurs in the function body. -/
def fitModelsGlobalEffect (fitDraws : Nat → Nat) (g : PyGlobalState) : PyGlobalState :=
  npRandomDraw fitDraws (npRandomSeed 42 g)

/-- C7 counterexample: no admissible draw behavior of the fits makes
`fit_models` preserve the process-wide state: whatever state advance the
fits perform after the line-104 reseed, some pre-call RNG state is changed
by the call. -/
theorem fit_models_not_global_state_preserving :
    ¬ ∃ fitDraws : Nat → Nat, ∀ g : PyGlobalState,
        fitModelsGlobalEffect fitDraws g = g := by
  rintro ⟨f, hf⟩
  have h1 := congrArg PyGlobalState.npRandomState (hf ⟨f 42 + 1, []⟩)
  simp only [fitModelsGlobalEffect, npRandomDraw, npRandomSeed] at h1
  omega

/-- C7 amended: `fit_models` performs no I/O, but it does mutate the
process-wide NumPy RNG: it reseeds it to the fixed seed 42 and the
subsequent classifier fits advance it from that state, so the post-call
RNG state is determined by the fixed seed and the fitting work alone,
independent of the pre-call RNG state; no other global state changes. -/
theorem fit_models_global_effect_rng_only (fitDraws : Nat → Nat) (g : PyGlobalState) :
    (fitModelsGlobalEffect fitDraws g).stdoutLines = g.stdoutLines ∧
    (fitModelsGlobalEffect fitDraws g).npRandomState = fitDraws 42 ∧
    ∀ g2 : PyGlobalState,
      (fitModelsGlobalEffect fitDraws g).npRandomState
        = (fitModelsGlobalEffect fitDraws g2).npRandomState :=
  ⟨rfl, rfl, fun _ => rfl⟩

/-- C9: the concatenated sweep output is invariant, up to a permutation of
its rows, under any permutation of the completion order in which the
worker pool yields the per-task results (each task result is the value of
the fitting function at the task's feature subset, independent of
scheduling). -/
theorem sweep_results_perm_of_completion_order_perm {α β : Type}
    (fitSummary : List α → List β) (l : List α) {o₁ o₂ : List Nat}
    (h : o₁.Perm o₂) :
    (sweepSummaryRows fitSummary l o₁).Perm (sweepSummaryRows fitSummary l o₂) :=
  flatten_perm_of_perm (h.map _)

theorem sweep_results_perm_witness :
    (([1, 0, 2] : List Nat).Perm [2, 1, 0]) ∧
    (sweepSummaryRows (fun s => [s.length]) ([10, 20, 30] : List Nat) [1, 0, 2]).Perm
      (sweepSummaryRows (fun s => [s.length]) ([10, 20, 30] : List Nat) [2, 1, 0]) :=
  ⟨by decide,
    sweep_results_perm_of_completion_order_perm (fun s => [s.length]) [10, 20, 30] (by decide)⟩

/-! ### Class-count prelude of `fit_models` (subsample.py lines 113-120) -/

/-- `np.unique(y, return_counts=True)` (line 118): the occurrence counts of
the distinct values of `y`, listed in ascending order of the value. -/
def uniqueCounts (y : List Int) : List Nat :=
  ((y.dedup).insertionSort (· ≤ ·)).map (fun v => y.count v)

/-- `Learner(dx=y_name, hc_n=uc[0], dx_n=uc[1], x_ids=x_ids)` (line 120):
reading `uc[0]` and `uc[1]` raises `IndexError` (`none`) when fewer than
two distinct values occur in the target vector. -/
def learnerClassCounts (y : List Int) : Option (Nat × Nat) :=
  match uniqueCounts y with
  | c0 :: c1 :: _ => some (c0, c1)
  | _ => none

/-- The per-diagnosis loop of `fit_models` up to `Learner` construction
(lines 113-120); an uncaught exception aborts the whole call. -/
def fitModelsClassCounts (ys : List (List Int)) : Option (List (Nat × Nat)) :=
  ys.mapM learnerClassCounts

theorem mapM_eq_none_of_mem_none {α β : Type} (f : α → Option β) (l : List α) (a : α)
    (ha : a ∈ l) (hf : f a = none) : l.mapM f = none := by
  induction l with
  | nil => cases ha
  | cons b t ih =>
    rw [List.mapM_cons]
    rcases List.mem_cons.mp ha with h | h
    · rw [← h, hf]; rfl
    · cases hb : f b with
      | none => rfl
      | some v => rw [ih h]; rfl

/-- C2 counterexample: a batch containing one all-negative diagnosis makes
`fit_models` raise (`none`) instead of recording a NaN, so the second,
well-formed diagnosis in the same call is never fitted. -/
theorem fit_models_single_class_raises :
    fitModelsClassCounts [[0, 0, 0, 0], [0, 1, 0, 1]] = none := by decide

/-- C2 amended: a diagnosis whose target vector has zero samples in one
class overall (a single distinct value) causes `fit_models` to raise an
out-of-bounds fault while reading the class counts, aborting the entire
call before any fit; the condition is not signalled by a NaN and the
remaining diagnoses of the call are not fitted. -/
theorem fit_models_single_class_aborts_call (ys : List (List Int)) (y : List Int)
    (hy : y ∈ ys) (hsingle : y.dedup.length ≤ 1) :
    fitModelsClassCounts ys = none := by
  have hcount : learnerClassCounts y = none := by
    have hlen : (uniqueCounts y).length ≤ 1 := by
      unfold uniqueCounts
      rw [List.length_map, (List.perm_insertionSort _ _).length_eq]
      exact hsingle
    unfold learnerClassCounts
    match h : uniqueCounts y with
    | [] => rfl
    | [c] => rfl
    | c0 :: c1 :: rest => rw [h] at hlen; simp at hlen
  exact mapM_eq_none_of_mem_none _ _ _ hy hcount

theorem fit_models_single_class_aborts_call_witness :
    ([0, 0, 0] : List Int) ∈ [[0, 0, 0], [0, 1, 1]] ∧
    ([0, 0, 0] : List Int).dedup.length ≤ 1 ∧
    fitModelsClassCounts [[0, 0, 0], [0, 1, 1]] = none :=
  ⟨by decide, by decide,
    fit_models_single_class_aborts_call [[0, 0, 0], [0, 1, 1]] [0, 0, 0] (by decide) (by decide)⟩

/-! ### Importance aggregation of `fit_models` (subsample.py lines 147-152, 180-193) -/

/-- `np.vstack(current_learner.fi)` (line 182): the nested per-outer-fold
lists of per-sub-model importance vectors, stacked into a flat list of
rows with the fold order preserved. -/
def vstackRows (fi : List (List (List ℚ))) : List (List ℚ) :=
  fi.flatten

/-- `np.mean(rows, axis=0)`: the column-wise mean of a stack of equal-width
rows (the width is that of the first row). -/
def npMeanAxis0 (rows : List (List ℚ)) : List ℚ :=
  (List.range (rows.headD []).length).map
    (fun k => (rows.map (fun r => r.getD k 0)).sum / (rows.length : ℚ))

/-- Spec-side comparison definition for the refinement claim, following the
spec's words: average the per-sub-model importance vectors into one mean
vector per outer fold, then average those per-fold vectors across folds. -/
def twoStageMean (fi : List (List (List ℚ))) : List ℚ :=
  npMeanAxis0 (fi.map npMeanAxis0)

theorem sum_getD_range (r : List ℚ) :
    ((List.range r.length).map (fun k => r.getD k 0)).sum = r.sum := by
  rw [map_getD_range]

theorem sum_comm_getD (rows : List (List ℚ)) (f : Nat) :
    ((List.range f).map (fun k => (rows.map (fun r => r.getD k 0)).sum)).sum
      = (rows.map (fun r => ((List.range f).map (fun k => r.getD k 0)).sum)).sum := by
  induction rows with
  | nil => simp
  | cons r t ih =>
    have hsplit : ((List.range f).map (fun k => ((r :: t).map (fun q => q.getD k 0)).sum)).sum
        = ((List.range f).map
            (fun k => r.getD k 0 + (t.map (fun q => q.getD k 0)).sum)).sum := by
      simp
    rw [hsplit, sum_map_add, ih]
    simp

theorem flat_sum_eq_fold_sums (fi : List (List (List ℚ))) (k : Nat) :
    ((vstackRows fi).map (fun r => r.getD k 0)).sum
      = (fi.map (fun fold => (fold.map (fun r => r.getD k 0)).sum)).sum := by
  unfold vstackRows
  rw [List.map_flatten, List.sum_flatten, List.map_map]
  rfl

/-- C4: whenever every outer fold contributes the same positive number of
sub-model importance vectors of a common width, the flat mean computed at
line 182 coincides with the two-stage mean (per-fold means of sub-model
vectors, then the mean of the fold means across outer folds). -/
theorem flat_mean_eq_two_stage_mean (fi : List (List (List ℚ))) (m f : Nat)
    (hne : fi ≠ []) (hm : 0 < m)
    (hfold : ∀ fold ∈ fi, fold.length = m)
    (hrow : ∀ fold ∈ fi, ∀ r ∈ fold, r.length = f) :
    npMeanAxis0 (vstackRows fi) = twoStageMean fi := by
  obtain ⟨fold₀, rest, rfl⟩ := List.exists_cons_of_ne_nil hne
  have hfold₀ : fold₀.length = m := hfold fold₀ (List.mem_cons_self _ _)
  have hfold₀ne : fold₀ ≠ [] := by
    intro h
    rw [h] at hfold₀
    simp at hfold₀
    omega
  obtain ⟨r₀, t₀, rfl⟩ := List.exists_cons_of_ne_nil hfold₀ne
  have hr₀ : r₀.length = f :=
    hrow _ (List.mem_cons_self _ _) r₀ (List.mem_cons_self _ _)
  set fi := (r₀ :: t₀) :: rest with hfi
  have hw1 : ((vstackRows fi).headD []).length = f := by
    simp [vstackRows, hfi, hr₀]
  have hw2 : (((fi.map npMeanAxis0)).headD []).length = f := by
    simp only [hfi, List.map_cons, List.headD_cons, npMeanAxis0]
    simp [hr₀]
  have hflatlen : (vstackRows fi).length = fi.length * m := by
    unfold vstackRows
    rw [List.length_flatten]
    have hrep : fi.map List.length = List.replicate fi.length m := by
      have := List.eq_replicate_of_mem (l := fi.map List.length) (a := m) ?_
      · rw [this, List.length_map]
      · intro b hb
        obtain ⟨fold, hfold', rfl⟩ := List.mem_map.mp hb
        exact hfold fold hfold'
    rw [hrep, List.sum_replicate, smul_eq_mul]
  unfold npMeanAxis0 twoStageMean
  rw [hw1]
  conv_rhs => rw [npMeanAxis0, hw2]
  apply List.map_congr_left
  intro k hk
  have hkf : k < f := List.mem_range.mp hk
  have hinner : ∀ fold ∈ fi, (npMeanAxis0 fold).getD k 0
      = (fold.map (fun r => r.getD k 0)).sum / (m : ℚ) := by
    intro fold hfoldmem
    have hlm : fold.length = m := hfold fold hfoldmem
    have hfne : fold ≠ [] := by
      intro h
      rw [h] at hlm
      simp at hlm
      omega
    obtain ⟨q, tq, rfl⟩ := List.exists_cons_of_ne_nil hfne
    have hq : q.length = f := hrow _ hfoldmem q (List.mem_cons_self _ _)
    unfold npMeanAxis0
    rw [List.headD_cons, hq, getD_map_range _ hkf, hlm]
  have hmapmap : ((fi.map npMeanAxis0).map (fun r => r.getD k 0))
      = fi.map (fun fold => (fold.map (fun r => r.getD k 0)).sum / (m : ℚ)) := by
    rw [List.map_map]
    exact List.map_congr_left hinner
  rw [hmapmap, flat_sum_eq_fold_sums, sum_map_div, hflatlen, List.length_map]
  push_cast
  rw [div_div]
  ring_nf

theorem flat_mean_eq_two_stage_mean_witness :
    (([[[1, 0], [0, 1]], [[1/2, 1/2], [1, 0]]] : List (List (List ℚ))) ≠ []) ∧
    0 < 2 ∧
    (∀ fold ∈ ([[[1, 0], [0, 1]], [[1/2, 1/2], [1, 0]]] : List (List (List ℚ))),
      fold.length = 2) ∧
    (∀ fold ∈ ([[[1, 0], [0, 1]], [[1/2, 1/2], [1, 0]]] : List (List (List ℚ))),
      ∀ r ∈ fold, r.length = 2) ∧
    npMeanAxis0 (vstackRows ([[[1, 0], [0, 1]], [[1/2, 1/2], [1, 0]]] : List (List (List ℚ))))
      = twoStageMean ([[[1, 0], [0, 1]], [[1/2, 1/2], [1, 0]]] : List (List (List ℚ))) :=
  ⟨by decide, by decide, by decide, by decide,
    flat_mean_eq_two_stage_mean [[[1, 0], [0, 1]], [[1/2, 1/2], [1, 0]]] 2 2
      (by decide) (by decide) (by decide) (by decide)⟩

theorem sum_map_one {α : Type} (l : List α) :
    (l.map (fun _ => (1 : ℚ))).sum = (l.length : ℚ) := by
  induction l with
  | nil => simp
  | cons a t ih => simp [ih]; ring

theorem npMeanAxis0_length (rows : List (List ℚ)) (f : Nat) (hne : rows ≠ [])
    (hlen : ∀ r ∈ rows, r.length = f) : (npMeanAxis0 rows).length = f := by
  obtain ⟨r, t, rfl⟩ := List.exists_cons_of_ne_nil hne
  have hr := hlen r (List.mem_cons_self _ _)
  simp [npMeanAxis0, hr]

theorem npMeanAxis0_sum_one (rows : List (List ℚ)) (f : Nat) (hne : rows ≠ [])
    (hlen : ∀ r ∈ rows, r.length = f) (hsum : ∀ r ∈ rows, r.sum = 1) :
    (npMeanAxis0 rows).sum = 1 := by
  have hw : (rows.headD []).length = f := by
    obtain ⟨r, t, rfl⟩ := List.exists_cons_of_ne_nil hne
    rw [List.headD_cons]
    exact hlen r (List.mem_cons_self _ _)
  unfold npMeanAxis0
  rw [hw, sum_map_div, sum_comm_getD]
  have hones : rows.map (fun r => ((List.range f).map (fun k => r.getD k 0)).sum)
      = rows.map (fun _ => (1 : ℚ)) := by
    apply List.map_congr_left
    intro r hr
    rw [← hlen r hr, sum_getD_range, hsum r hr]
  rw [hones, sum_map_one]
  have hlen0 : rows.length ≠ 0 := by
    intro h
    exact hne (List.length_eq_zero.mp h)
  exact div_self (by exact_mod_cast hlen0)

theorem npMeanAxis0_nonneg (rows : List (List ℚ))
    (hnn : ∀ r ∈ rows, ∀ v ∈ r, 0 ≤ v) :
    ∀ v ∈ npMeanAxis0 rows, 0 ≤ v := by
  intro v hv
  unfold npMeanAxis0 at hv
  obtain ⟨k, hk, rfl⟩ := List.mem_map.mp hv
  apply div_nonneg
  · apply List.sum_nonneg
    intro x hx
    obtain ⟨r, hr, rfl⟩ := List.mem_map.mp hx
    by_cases h : k < r.length
    · have hget : r.getD k 0 = r[k] := by
        rw [List.getD_eq_getElem?_getD, List.getElem?_eq_getElem h]
        rfl
      rw [hget]
      exact hnn r hr _ (List.getElem_mem h)
    · have hget : r.getD k 0 = 0 := by
        rw [List.getD_eq_getElem?_getD, List.getElem?_eq_none (by omega)]
        rfl
      rw [hget]
  · exact Nat.cast_nonneg _

/-- One importance row per diagnosis (lines 180-185): the flat mean of all
nested sub-model importance vectors, associated with the feature
identifiers by `zip(x_ids, means)`. -/
def importanceRow {ι : Type} (x_ids : List ι) (fi : List (List (List ℚ))) : List (ι × ℚ) :=
  x_ids.zip (npMeanAxis0 (vstackRows fi))

/-- The importance table returned by `fit_models` (lines 110, 185, 191):
one row per diagnosis in `y_ids`, keyed by the diagnosis. -/
def importanceTable {δ ι : Type} (y_ids : List δ) (x_ids : List ι)
    (fi : δ → List (List (List ℚ))) : List (δ × List (ι × ℚ)) :=
  y_ids.map (fun y => (y, importanceRow x_ids (fi y)))

/-- The summary table returned by `fit_models` (lines 111, 178, 190): one
summary row appended per diagnosis; the row contents come from
`Learner.summary`, abstracted here as `summary`. -/
def summariesTable {δ σ : Type} (y_ids : List δ) (summary : δ → σ) : List σ :=
  y_ids.map summary

/-- C8: a completed `fit_models` call over `d` diagnoses and `f` features
yields an importance table with exactly `d` rows keyed by diagnosis and
`f` feature columns per row, a summary table with exactly `d` rows, and
(when every sub-model importance vector has length `f`, is non-negative,
and sums to 1) every importance row is non-negative and sums to the fixed
normalization constant 1. -/
theorem fit_models_table_shapes {δ ι σ : Type} (y_ids : List δ) (x_ids : List ι)
    (fi : δ → List (List (List ℚ))) (summary : δ → σ)
    (hne : ∀ y ∈ y_ids, vstackRows (fi y) ≠ [])
    (hlen : ∀ y ∈ y_ids, ∀ r ∈ vstackRows (fi y), r.length = x_ids.length)
    (hnn : ∀ y ∈ y_ids, ∀ r ∈ vstackRows (fi y), ∀ v ∈ r, 0 ≤ v)
    (hsum : ∀ y ∈ y_ids, ∀ r ∈ vstackRows (fi y), r.sum = 1) :
    (importanceTable y_ids x_ids fi).length = y_ids.length ∧
    (summariesTable y_ids summary).length = y_ids.length ∧
    (∀ row ∈ importanceTable y_ids x_ids fi,
      row.2.length = x_ids.length ∧
      (row.2.map Prod.snd).sum = 1 ∧
      ∀ p ∈ row.2, 0 ≤ p.2) := by
  refine ⟨by simp [importanceTable], by simp [summariesTable], ?_⟩
  intro row hrow
  obtain ⟨y, hy, rfl⟩ := List.mem_map.mp hrow
  have hml := npMeanAxis0_length (vstackRows (fi y)) x_ids.length (hne y hy) (hlen y hy)
  refine ⟨?_, ?_, ?_⟩
  · simp [importanceRow, List.length_zip, hml]
  · have hz : (importanceRow x_ids (fi y)).map Prod.snd
        = npMeanAxis0 (vstackRows (fi y)) := by
      apply List.map_snd_zip
      rw [hml]
    rw [hz]
    exact npMeanAxis0_sum_one _ _ (hne y hy) (hlen y hy) (hsum y hy)
  · intro p hp
    rcases p with ⟨a, b⟩
    have hb := (List.of_mem_zip hp).2
    exact npMeanAxis0_nonneg _ (hnn y hy) b hb

theorem fit_models_table_shapes_witness :
    (∀ y ∈ (["dx1"] : List String),
      vstackRows ((fun _ => [[[1, 0]]] : String → List (List (List ℚ))) y) ≠ []) ∧
    (∀ y ∈ (["dx1"] : List String),
      ∀ r ∈ vstackRows ((fun _ => [[[1, 0]]] : String → List (List (List ℚ))) y),
        r.length = (["q1", "q2"] : List String).length) ∧
    (∀ y ∈ (["dx1"] : List String),
      ∀ r ∈ vstackRows ((fun _ => [[[1, 0]]] : String → List (List (List ℚ))) y),
        ∀ v ∈ r, 0 ≤ v) ∧
    (∀ y ∈ (["dx1"] : List String),
      ∀ r ∈ vstackRows ((fun _ => [[[1, 0]]] : String → List (List (List ℚ))) y),
        r.sum = 1) ∧
    ((importanceTable ["dx1"] ["q1", "q2"]
        (fun _ => [[[1, 0]]] : String → List (List (List ℚ)))).length = 1 ∧
     (summariesTable (["dx1"] : List String) (fun _ => (0 : Nat))).length = 1 ∧
     (∀ row ∈ importanceTable ["dx1"] ["q1", "q2"]
        (fun _ => [[[1, 0]]] : String → List (List (List ℚ))),
       row.2.length = 2 ∧ (row.2.map Prod.snd).sum = 1 ∧ ∀ p ∈ row.2, 0 ≤ p.2)) := by
  refine ⟨by decide, by decide, by decide, by norm_num [vstackRows], ?_⟩
  have h := fit_models_table_shapes ["dx1"] ["q1", "q2"]
    (fun _ => [[[1, 0]]]) (fun _ => (0 : Nat)) (by decide) (by decide) (by decide) (by norm_num [vstackRows])
  exact h

/-! ### Ranking computations of `calculate_feature_importance`
(subsample.py lines 196-232) -/

/-- Top slice reported for the aggregate strategy:
`x_ids_sorted_by_aggregate[0:number_of_questions]` (line 208). -/
def sortedImportanceAgg {α : Type} (agg : List α) (nq : Nat) : List α :=
  agg.take nq

/-- Top slice reported for the top-N strategy:
`x_ids_sorted_by_topn[0:number_of_questions]` (line 214). -/
def sortedImportanceTopn {α : Type} (topn : List α) (nq : Nat) : List α :=
  topn.take nq

/-- `all_qs = set(list(sorted_importance_agg) + list(sorted_importance_topn))`
(line 221). -/
def allQs {α : Type} [DecidableEq α] (agg topn : List α) (nq : Nat) : Finset α :=
  (sortedImportanceAgg agg nq ++ sortedImportanceTopn topn nq).toFinset

/-- `diff = np.abs(number_of_questions - len(all_qs))` (line 222). -/
def consistencyDiff {α : Type} [DecidableEq α] (agg topn : List α) (nq : Nat) : Nat :=
  ((nq : Int) - ((allQs agg topn nq).card : Int)).natAbs

/-- `frac = 1.0 * diff / number_of_questions * 100` (line 223). -/
def consistencyFrac {α : Type} [DecidableEq α] (agg topn : List α) (nq : Nat) : ℚ :=
  1 * (consistencyDiff agg topn nq : ℚ) / (nq : ℚ) * 100

/-- The row-major list of index pairs `(i, j)` at which the broadcast
comparison `x_ids_sorted_by_aggregate[:, None] == x_ids_sorted_by_topn`
holds, as returned by `np.where` (lines 227-229). -/
def matchPairs {α : Type} [DecidableEq α] (agg topn : List α) : List (Nat × Nat) :=
  (List.range agg.length).flatMap (fun i =>
    ((List.range topn.length).filter (fun j => agg[i]? == topn[j]?)).map (fun j => (i, j)))

/-- `avg_rank = np.mean(np.where(...), axis=0)` (lines 227-229): the
per-match mean of row index and column index. -/
def avgRank {α : Type} [DecidableEq α] (agg topn : List α) : List ℚ :=
  (matchPairs agg topn).map (fun p => ((p.1 : ℚ) + (p.2 : ℚ)) / 2)

/-- Non-decreasing-key relation on positions of `keys`. -/
def keyLe (keys : List ℚ) (i j : Nat) : Prop :=
  keys.getD i 0 ≤ keys.getD j 0

instance keyLe.instDecidableRel (keys : List ℚ) : DecidableRel (keyLe keys) := fun i j => by
  unfold keyLe
  infer_instance

instance keyLe.instIsTotal (keys : List ℚ) : IsTotal Nat (keyLe keys) :=
  ⟨fun _ _ => le_total _ _⟩

instance keyLe.instIsTrans (keys : List ℚ) : IsTrans Nat (keyLe keys) :=
  ⟨fun _ _ _ hab hbc => le_trans hab hbc⟩

/-- What `np.argsort(keys)` (line 230) guarantees about its result: a
permutation of the index range of `keys` along which the keys are
non-decreasing.  The default sort kind (quicksort/introsort) does not
specify the relative order of positions with equal keys, so nothing below
assumes anything about tie order. -/
def isArgsortResult (keys : List ℚ) (S : List Nat) : Prop :=
  S.Perm (List.range keys.length) ∧ S.Pairwise (keyLe keys)

/-- One admissible output of `np.argsort(keys)`, used only to give
`calculate_feature_importance` a concrete return value; no property of its
tie order is used anywhere in this development. -/
def argsortQ (keys : List ℚ) : List Nat :=
  (List.range keys.length).insertionSort (keyLe keys)

/-- Fancy indexing `x_ids_sorted_by_aggregate[S]` by an index array `S`
(line 230); an out-of-bounds index raises (`none`). -/
def fusedOrderOf {α : Type} (agg : List α) (S : List Nat) : Option (List α) :=
  S.mapM (fun i => agg[i]?)

/-- The fused ordering `x_ids_sorted_by_aggregate[np.argsort(avg_rank)]`
(line 230), at the admissible argsort output `argsortQ`. -/
def fusedOrder {α : Type} [DecidableEq α] (agg topn : List α) : Option (List α) :=
  fusedOrderOf agg (argsortQ (avgRank agg topn))

/-- The triple returned by `calculate_feature_importance` (line 232). -/
def calculateFeatureImportance {α : Type} [DecidableEq α] (agg topn : List α)
    (number_of_questions : Nat) : Option (List α × List α × List α) :=
  (fusedOrder agg topn).map (fun fused => (agg, topn, fused))

/-- Position of the `i`-th feature of the aggregate ordering inside the
top-N ordering. -/
def posTopn {α : Type} [DecidableEq α] [Inhabited α] (agg topn : List α) (i : Nat) : Nat :=
  topn.indexOf (agg.getD i default)

theorem filter_matches_eq_singleton {α : Type} [DecidableEq α] [Inhabited α]
    {agg topn : List α} (hT : topn.Nodup) {i : Nat} (hi : i < agg.length)
    (hmem : agg.getD i default ∈ topn) :
    (List.range topn.length).filter (fun j => agg[i]? == topn[j]?)
      = [posTopn agg topn i] := by
  have hj₀ : posTopn agg topn i < topn.length := List.indexOf_lt_length.mpr hmem
  have hang : agg[i]? = some (agg.getD i default) := by
    rw [List.getD_eq_getElem?_getD, List.getElem?_eq_getElem hi]
    rfl
  have hpred : ∀ j ∈ List.range topn.length,
      (agg[i]? == topn[j]?) = (j == posTopn agg topn i) := by
    intro j hj
    have hjlen : j < topn.length := List.mem_range.mp hj
    rw [hang, List.getElem?_eq_getElem hjlen, Bool.eq_iff_iff]
    simp only [beq_iff_eq, Option.some.injEq]
    constructor
    · intro h
      exact (hT.getElem_inj_iff).mp (h.symm.trans (List.getElem_indexOf hj₀).symm)
    · intro h
      subst h
      exact (List.getElem_indexOf hj₀).symm
  rw [List.filter_congr hpred, List.filter_beq,
    List.count_eq_one_of_mem (List.nodup_range _) (List.mem_range.mpr hj₀)]
  rfl

theorem flatMap_singleton_eq_map {α β : Type} (l : List α) (f : α → β) :
    (l.flatMap (fun x => [f x])) = l.map f := by
  induction l with
  | nil => rfl
  | cons a t ih => simp [ih]

theorem flatMap_congr_left {α β : Type} {l : List α} {f g : α → List β}
    (h : ∀ a ∈ l, f a = g a) : l.flatMap f = l.flatMap g := by
  induction l with
  | nil => rfl
  | cons a t ih =>
    simp only [List.flatMap_cons]
    rw [h a (List.mem_cons_self _ _), ih (fun b hb => h b (List.mem_cons_of_mem _ hb))]

theorem matchPairs_eq {α : Type} [DecidableEq α] [Inhabited α]
    {agg topn : List α} (hA : agg.Nodup) (hP : agg.Perm topn) :
    matchPairs agg topn
      = (List.range agg.length).map (fun i => (i, posTopn agg topn i)) := by
  have hT : topn.Nodup := hP.nodup_iff.mp hA
  unfold matchPairs
  have hstep : (List.range agg.length).flatMap
      (fun i => ((List.range topn.length).filter
        (fun j => agg[i]? == topn[j]?)).map (fun j => (i, j)))
      = (List.range agg.length).flatMap (fun i => [(i, posTopn agg topn i)]) := by
    apply flatMap_congr_left
    intro i hi
    have hi' : i < agg.length := List.mem_range.mp hi
    have hmem : agg.getD i default ∈ topn := by
      apply hP.mem_iff.mp
      have hg : agg.getD i default = agg[i] := by
        rw [List.getD_eq_getElem?_getD, List.getElem?_eq_getElem hi']
        rfl
      rw [hg]
      exact List.getElem_mem hi'
    rw [filter_matches_eq_singleton hT hi' hmem]
    rfl
  rw [hstep, flatMap_singleton_eq_map]

theorem avgRank_eq {α : Type} [DecidableEq α] [Inhabited α]
    {agg topn : List α} (hA : agg.Nodup) (hP : agg.Perm topn) :
    avgRank agg topn
      = (List.range agg.length).map
          (fun (i : Nat) => ((i : ℚ) + (posTopn agg topn i : ℚ)) / 2) := by
  unfold avgRank
  rw [matchPairs_eq hA hP, List.map_map]
  rfl

theorem length_avgRank {α : Type} [DecidableEq α] [Inhabited α]
    {agg topn : List α} (hA : agg.Nodup) (hP : agg.Perm topn) :
    (avgRank agg topn).length = agg.length := by
  rw [avgRank_eq hA hP]
  simp

theorem argsortQ_perm (keys : List ℚ) : (argsortQ keys).Perm (List.range keys.length) :=
  List.perm_insertionSort _ _

theorem argsortQ_sorted (keys : List ℚ) : (argsortQ keys).Pairwise (keyLe keys) :=
  List.sorted_insertionSort _ _

theorem argsortQ_isArgsortResult (keys : List ℚ) : isArgsortResult keys (argsortQ keys) :=
  ⟨argsortQ_perm keys, argsortQ_sorted keys⟩

theorem mem_argsortQ_lt {keys : List ℚ} {i : Nat} (h : i ∈ argsortQ keys) :
    i < keys.length :=
  List.mem_range.mp ((argsortQ_perm keys).mem_iff.mp h)

theorem mapM_getElem?_eq_map_getD {α : Type} [Inhabited α] (l : List α) (idxs : List Nat)
    (h : ∀ i ∈ idxs, i < l.length) :
    idxs.mapM (fun i => l[i]?) = some (idxs.map (fun i => l.getD i default)) := by
  induction idxs with
  | nil => rfl
  | cons i t ih =>
    rw [List.mapM_cons]
    have hi : i < l.length := h i (List.mem_cons_self _ _)
    rw [List.getElem?_eq_getElem hi, ih (fun j hj => h j (List.mem_cons_of_mem _ hj))]
    have hg : l.getD i default = l[i] := by
      rw [List.getD_eq_getElem?_getD, List.getElem?_eq_getElem hi]
      rfl
    simp [hg, List.getElem?_eq_getElem hi]

theorem fusedOrderOf_eq_some {α : Type} [Inhabited α] (agg : List α) (S : List Nat)
    (h : ∀ i ∈ S, i < agg.length) :
    fusedOrderOf agg S = some (S.map (fun i => agg.getD i default)) :=
  mapM_getElem?_eq_map_getD agg S h

theorem fusedOrder_eq_some {α : Type} [DecidableEq α] [Inhabited α]
    {agg topn : List α} (hA : agg.Nodup) (hP : agg.Perm topn) :
    fusedOrder agg topn
      = some ((argsortQ (avgRank agg topn)).map (fun i => agg.getD i default)) := by
  unfold fusedOrder
  apply fusedOrderOf_eq_some
  intro i hi
  have hlt := mem_argsortQ_lt hi
  rwa [length_avgRank hA hP] at hlt

/-- C10: whenever the aggregate ordering and the top-N ordering are both
permutations of the same duplicate-free feature set, the fused ordering
returned by `calculate_feature_importance` is itself a permutation of that
set: it has the same length and contains every feature exactly once. -/
theorem fused_order_is_permutation {α : Type} [DecidableEq α] [Inhabited α]
    (x_ids agg topn : List α) (hx : x_ids.Nodup) (hA : agg.Perm x_ids)
    (hT : topn.Perm x_ids) :
    ∃ fused, fusedOrder agg topn = some fused ∧ fused.Perm x_ids ∧
      fused.Nodup ∧ fused.length = x_ids.length ∧
      ∀ x ∈ x_ids, fused.count x = 1 := by
  have hAN : agg.Nodup := hA.nodup_iff.mpr hx
  have hP : agg.Perm topn := hA.trans hT.symm
  refine ⟨_, fusedOrder_eq_some hAN hP, ?_⟩
  have hperm : ((argsortQ (avgRank agg topn)).map (fun i => agg.getD i default)).Perm agg := by
    have h1 : (argsortQ (avgRank agg topn)).Perm (List.range agg.length) := by
      have h0 := argsortQ_perm (avgRank agg topn)
      rwa [length_avgRank hAN hP] at h0
    have h2 := h1.map (fun i => agg.getD i default)
    rwa [map_getD_range agg default] at h2
  have hpx := hperm.trans hA
  have hnd : ((argsortQ (avgRank agg topn)).map (fun i => agg.getD i default)).Nodup :=
    (hpx.nodup_iff).mpr hx
  refine ⟨hpx, hnd, hpx.length_eq, ?_⟩
  intro x hxmem
  exact List.count_eq_one_of_mem hnd (hpx.mem_iff.mpr hxmem)

theorem fused_order_is_permutation_witness :
    (([0, 1, 2] : List Nat).Nodup) ∧ (([2, 0, 1] : List Nat).Perm [0, 1, 2]) ∧
    (([1, 2, 0] : List Nat).Perm [0, 1, 2]) ∧
    (∃ fused, fusedOrder ([2, 0, 1] : List Nat) [1, 2, 0] = some fused ∧
      fused.Perm [0, 1, 2] ∧ fused.Nodup ∧
      fused.length = ([0, 1, 2] : List Nat).length ∧
      ∀ x ∈ ([0, 1, 2] : List Nat), fused.count x = 1) :=
  ⟨by decide, by decide, by decide,
    fused_order_is_permutation [0, 1, 2] [2, 0, 1] [1, 2, 0] (by decide) (by decide) (by decide)⟩

/-- The arithmetic mean of a feature's position in the aggregate ordering
and its position in the top-N ordering (the fused sort key). -/
def meanPos {α : Type} [DecidableEq α] (agg topn : List α) (x : α) : ℚ :=
  ((agg.indexOf x : ℚ) + (topn.indexOf x : ℚ)) / 2

theorem indexOf_getElem_self {α : Type} [DecidableEq α] {l : List α} (h : l.Nodup)
    {i : Nat} (hi : i < l.length) : l.indexOf l[i] = i := by
  have hmem : l[i] ∈ l := List.getElem_mem hi
  have hlt : l.indexOf l[i] < l.length := List.indexOf_lt_length.mpr hmem
  exact (h.getElem_inj_iff).mp (List.getElem_indexOf hlt)

theorem getD_eq_getElem_of_lt {α : Type} [Inhabited α] {l : List α} {i : Nat}
    (hi : i < l.length) : l.getD i default = l[i] := by
  rw [List.getD_eq_getElem?_getD, List.getElem?_eq_getElem hi]
  rfl

/-- C3 counterexample: `np.argsort`'s default quicksort does not specify
tie order.  With aggregate ordering `[0,1,2,3]` and top-N ordering
`[1,0,3,2]` the mean positions of features 0 and 1 tie at 1/2; the index
array `[1,0,2,3]` is an admissible argsort output of `avg_rank`, and the
fused ordering it induces places feature 1 (aggregate position 1) before
feature 0 (aggregate position 0), violating the claimed tie-break by
aggregate position. -/
theorem fused_tie_break_not_guaranteed :
    isArgsortResult (avgRank ([0, 1, 2, 3] : List Nat) [1, 0, 3, 2]) [1, 0, 2, 3] ∧
    fusedOrderOf ([0, 1, 2, 3] : List Nat) [1, 0, 2, 3] = some [1, 0, 2, 3] ∧
    meanPos ([0, 1, 2, 3] : List Nat) [1, 0, 3, 2] 1
      = meanPos ([0, 1, 2, 3] : List Nat) [1, 0, 3, 2] 0 ∧
    ¬ (([0, 1, 2, 3] : List Nat).indexOf 1 ≤ ([0, 1, 2, 3] : List Nat).indexOf 0) := by
  have hA : ([0, 1, 2, 3] : List Nat).Nodup := by decide
  have hP : ([0, 1, 2, 3] : List Nat).Perm [1, 0, 3, 2] := by decide
  have hp0 : posTopn ([0, 1, 2, 3] : List Nat) [1, 0, 3, 2] 0 = 1 := by decide
  have hp1 : posTopn ([0, 1, 2, 3] : List Nat) [1, 0, 3, 2] 1 = 0 := by decide
  have hp2 : posTopn ([0, 1, 2, 3] : List Nat) [1, 0, 3, 2] 2 = 3 := by decide
  have hp3 : posTopn ([0, 1, 2, 3] : List Nat) [1, 0, 3, 2] 3 = 2 := by decide
  have hrange : List.range (([0, 1, 2, 3] : List Nat).length) = [0, 1, 2, 3] := by decide
  have hkexp : avgRank ([0, 1, 2, 3] : List Nat) [1, 0, 3, 2]
      = [((0 : ℚ) + 1) / 2, ((1 : ℚ) + 0) / 2, ((2 : ℚ) + 3) / 2, ((3 : ℚ) + 2) / 2] := by
    rw [avgRank_eq hA hP, hrange]
    simp only [List.map_cons, List.map_nil, hp0, hp1, hp2, hp3]
    norm_num
  have hlen4 : (avgRank ([0, 1, 2, 3] : List Nat) [1, 0, 3, 2]).length = 4 := by
    rw [hkexp]
    rfl
  have hpair : ([1, 0, 2, 3] : List Nat).Pairwise
      (keyLe (avgRank ([0, 1, 2, 3] : List Nat) [1, 0, 3, 2])) := by
    rw [hkexp]
    norm_num [List.pairwise_cons, keyLe]
  have hi1 : ([0, 1, 2, 3] : List Nat).indexOf 1 = 1 := by decide
  have hi0 : ([0, 1, 2, 3] : List Nat).indexOf 0 = 0 := by decide
  have hj1 : ([1, 0, 3, 2] : List Nat).indexOf 1 = 0 := by decide
  have hj0 : ([1, 0, 3, 2] : List Nat).indexOf 0 = 1 := by decide
  refine ⟨⟨?_, hpair⟩, by decide, ?_, by decide⟩
  · rw [hlen4]
    decide
  · unfold meanPos
    rw [hi1, hi0, hj1, hj0]
    norm_num

/-- C3 amended: the fused ranking attaches to the feature at each
aggregate position the arithmetic mean of its position in the aggregate
ordering and its position in the top-N ordering, and for every admissible
`np.argsort` output (a permutation of the index range with non-decreasing
keys — the tie order among equal mean positions is NOT determined by the
program, since the default quicksort is unstable) the induced fused
ordering lists the features in non-decreasing mean position; a feature
ranked first in both orderings has the strictly smallest mean position and
is therefore first in every admissible fused ordering. -/
theorem fused_order_nondecreasing_mean_position {α : Type} [DecidableEq α] [Inhabited α]
    (agg topn : List α) (S : List Nat) (hA : agg.Nodup) (hP : agg.Perm topn)
    (hS : isArgsortResult (avgRank agg topn) S) :
    ∃ fused, fusedOrderOf agg S = some fused ∧
      (∀ x ∈ agg,
        (avgRank agg topn).getD (agg.indexOf x) 0 = meanPos agg topn x) ∧
      fused.Pairwise (fun a b => meanPos agg topn a ≤ meanPos agg topn b) ∧
      (agg ≠ [] → agg[0]? = topn[0]? → fused[0]? = agg[0]?) := by
  obtain ⟨hSperm0, hSsort⟩ := hS
  have hSperm : S.Perm (List.range agg.length) := by
    rwa [length_avgRank hA hP] at hSperm0
  have hmemlt : ∀ i ∈ S, i < agg.length := fun i hi =>
    List.mem_range.mp (hSperm.mem_iff.mp hi)
  have hkey : ∀ i, i < agg.length →
      (avgRank agg topn).getD i 0 = meanPos agg topn (agg.getD i default) ∧
      agg.indexOf (agg.getD i default) = i := by
    intro i hi
    have hgd : agg.getD i default = agg[i] := getD_eq_getElem_of_lt hi
    have hio : agg.indexOf (agg.getD i default) = i := by
      rw [hgd]
      exact indexOf_getElem_self hA hi
    constructor
    · rw [avgRank_eq hA hP, getD_map_range _ hi]
      unfold meanPos posTopn
      rw [hio]
    · exact hio
  refine ⟨_, fusedOrderOf_eq_some agg S hmemlt, ?_, ?_, ?_⟩
  · intro x hx
    have hi : agg.indexOf x < agg.length := List.indexOf_lt_length.mpr hx
    have h1 := (hkey (agg.indexOf x) hi).1
    have hgd : agg.getD (agg.indexOf x) default = x := by
      rw [getD_eq_getElem_of_lt hi]
      exact List.getElem_indexOf hi
    rwa [hgd] at h1
  · rw [List.pairwise_map]
    apply List.Pairwise.imp_of_mem ?_ hSsort
    intro a b ha hb hr
    have han := hmemlt a ha
    have hbn := hmemlt b hb
    have hr2 : (avgRank agg topn).getD a 0 ≤ (avgRank agg topn).getD b 0 := hr
    rw [(hkey a han).1, (hkey b hbn).1] at hr2
    exact hr2
  · intro hne hhead
    have hn : 0 < agg.length := List.length_pos.mpr hne
    have hSne : S ≠ [] := by
      intro h
      have hl := hSperm.length_eq
      rw [h] at hl
      simp at hl
      omega
    obtain ⟨s, t, hst⟩ := List.exists_cons_of_ne_nil hSne
    have h0mem : 0 ∈ S := hSperm.mem_iff.mpr (List.mem_range.mpr hn)
    have htn : topn ≠ [] := by
      intro h
      have hl := hP.length_eq
      rw [h] at hl
      simp at hl
      exact hne hl
    obtain ⟨b, tb, rfl⟩ := List.exists_cons_of_ne_nil htn
    have hb : agg[0] = b := by
      rw [List.getElem?_eq_getElem hn, List.getElem?_cons_zero] at hhead
      exact Option.some.inj hhead
    have hkey0 : (avgRank agg (b :: tb)).getD 0 0 = 0 := by
      rw [avgRank_eq hA hP, getD_map_range _ hn]
      unfold posTopn
      rw [getD_eq_getElem_of_lt hn, hb, List.indexOf_cons_self]
      norm_num
    have hs0 : s = 0 := by
      by_contra hs
      have h0t : 0 ∈ t := by
        rcases List.mem_cons.mp (hst ▸ h0mem) with h | h
        · exact absurd h.symm hs
        · exact h
      have hsort2 := hSsort
      rw [hst] at hsort2
      have hpair : keyLe (avgRank agg (b :: tb)) s 0 :=
        (List.pairwise_cons.mp hsort2).1 0 h0t
      have hsn : s < agg.length := by
        apply hmemlt
        rw [hst]
        exact List.mem_cons_self _ _
      have hps : 1 ≤ posTopn agg (b :: tb) s := by
        by_contra hp
        push_neg at hp
        have hp0 : posTopn agg (b :: tb) s = 0 := by omega
        have heqb : agg.getD s default = b := by
          by_contra hne2
          have hgm : agg.getD s default ∈ (b :: tb) := by
            apply hP.mem_iff.mp
            rw [getD_eq_getElem_of_lt hsn]
            exact List.getElem_mem hsn
          have hlt2 : (b :: tb).indexOf (agg.getD s default) < (b :: tb).length :=
            List.indexOf_lt_length.mpr hgm
          unfold posTopn at hp0
          have hcons : (b :: tb).indexOf (agg.getD s default)
              = tb.indexOf (agg.getD s default) + 1 := by
            rw [List.indexOf_cons_ne]
            exact fun h => hne2 h.symm
          omega
        have heq2 : agg[s] = agg[0] := by
          rw [← getD_eq_getElem_of_lt hsn, heqb, ← hb]
        exact hs ((hA.getElem_inj_iff).mp heq2)
      have hs1 : 1 ≤ s := Nat.one_le_iff_ne_zero.mpr hs
      have hkeyS : (avgRank agg (b :: tb)).getD s 0
          = ((s : ℚ) + (posTopn agg (b :: tb) s : ℚ)) / 2 := by
        rw [avgRank_eq hA hP]
        exact getD_map_range _ hsn _
      have hge1 : (1 : ℚ) ≤ (avgRank agg (b :: tb)).getD s 0 := by
        rw [hkeyS]
        have c1 : (1 : ℚ) ≤ (s : ℚ) := by exact_mod_cast hs1
        have c2 : (1 : ℚ) ≤ (posTopn agg (b :: tb) s : ℚ) := by exact_mod_cast hps
        linarith
      have hpair2 : (avgRank agg (b :: tb)).getD s 0
          ≤ (avgRank agg (b :: tb)).getD 0 0 := hpair
      rw [hkey0] at hpair2
      linarith
    rw [hst, hs0, List.map_cons]
    have hg0 : agg.getD 0 default = agg[0] := getD_eq_getElem_of_lt hn
    rw [List.getElem?_cons_zero, hg0, List.getElem?_eq_getElem hn]

theorem fused_order_nondecreasing_mean_position_witness :
    (([5, 6, 7] : List Nat).Nodup) ∧ (([5, 6, 7] : List Nat).Perm [5, 7, 6]) ∧
    isArgsortResult (avgRank ([5, 6, 7] : List Nat) [5, 7, 6]) [0, 1, 2] ∧
    (∃ fused, fusedOrderOf ([5, 6, 7] : List Nat) [0, 1, 2] = some fused ∧
      (∀ x ∈ ([5, 6, 7] : List Nat),
        (avgRank ([5, 6, 7] : List Nat) [5, 7, 6]).getD
            (([5, 6, 7] : List Nat).indexOf x) 0
          = meanPos ([5, 6, 7] : List Nat) [5, 7, 6] x) ∧
      fused.Pairwise (fun a b =>
        meanPos ([5, 6, 7] : List Nat) [5, 7, 6] a
          ≤ meanPos ([5, 6, 7] : List Nat) [5, 7, 6] b) ∧
      (([5, 6, 7] : List Nat) ≠ [] →
        ([5, 6, 7] : List Nat)[0]? = ([5, 7, 6] : List Nat)[0]? →
        fused[0]? = ([5, 6, 7] : List Nat)[0]?)) := by
  have hA : ([5, 6, 7] : List Nat).Nodup := by decide
  have hP : ([5, 6, 7] : List Nat).Perm [5, 7, 6] := by decide
  have hp0 : posTopn ([5, 6, 7] : List Nat) [5, 7, 6] 0 = 0 := by decide
  have hp1 : posTopn ([5, 6, 7] : List Nat) [5, 7, 6] 1 = 2 := by decide
  have hp2 : posTopn ([5, 6, 7] : List Nat) [5, 7, 6] 2 = 1 := by decide
  have hrange : List.range (([5, 6, 7] : List Nat).length) = [0, 1, 2] := by decide
  have hkexp : avgRank ([5, 6, 7] : List Nat) [5, 7, 6]
      = [((0 : ℚ) + 0) / 2, ((1 : ℚ) + 2) / 2, ((2 : ℚ) + 1) / 2] := by
    rw [avgRank_eq hA hP, hrange]
    simp only [List.map_cons, List.map_nil, hp0, hp1, hp2]
    norm_num
  have hlen3 : (avgRank ([5, 6, 7] : List Nat) [5, 7, 6]).length = 3 := by
    rw [hkexp]
    rfl
  have hS : isArgsortResult (avgRank ([5, 6, 7] : List Nat) [5, 7, 6]) [0, 1, 2] := by
    constructor
    · rw [hlen3]
      decide
    · rw [hkexp]
      norm_num [List.pairwise_cons, keyLe]
  exact ⟨hA, hP, hS,
    fused_order_nondecreasing_mean_position [5, 6, 7] [5, 7, 6] [0, 1, 2] hA hP hS⟩

/-- C1 counterexample: with aggregate ordering `[0, 1, 2]`, top-N ordering
`[1, 0, 2]` and `top_n = 1`, the reported count is 1 while the symmetric
set difference of the two top slices has cardinality 2. -/
theorem consistency_report_not_symm_diff_card :
    ¬ (consistencyDiff ([0, 1, 2] : List Nat) [1, 0, 2] 1
        = (((sortedImportanceAgg ([0, 1, 2] : List Nat) 1).toFinset
              \ (sortedImportanceTopn ([1, 0, 2] : List Nat) 1).toFinset)
            ∪ ((sortedImportanceTopn ([1, 0, 2] : List Nat) 1).toFinset
              \ (sortedImportanceAgg ([0, 1, 2] : List Nat) 1).toFinset)).card) := by
  decide

/-- C1 amended: for every importance-derived pair of orderings and every
`top_n` not exceeding the number of features, the reported count equals
HALF the cardinality of the symmetric set difference between the two
top-`top_n` slices (equivalently, the number of features of one slice
missing from the other); it is 0 exactly when the slices coincide as sets,
and the reported percentage is that count divided by `top_n`, times 100. -/
theorem consistency_report_half_symm_diff {α : Type} [DecidableEq α]
    (agg topn : List α) (nq : Nat) (hA : agg.Nodup) (hP : agg.Perm topn)
    (hq : nq ≤ agg.length) :
    2 * consistencyDiff agg topn nq
        = (((sortedImportanceAgg agg nq).toFinset
              \ (sortedImportanceTopn topn nq).toFinset)
            ∪ ((sortedImportanceTopn topn nq).toFinset
              \ (sortedImportanceAgg agg nq).toFinset)).card ∧
    (consistencyDiff agg topn nq = 0 ↔
      (sortedImportanceAgg agg nq).toFinset = (sortedImportanceTopn topn nq).toFinset) ∧
    consistencyFrac agg topn nq = (consistencyDiff agg topn nq : ℚ) / (nq : ℚ) * 100 := by
  have hT : topn.Nodup := hP.nodup_iff.mp hA
  have hlen : topn.length = agg.length := hP.length_eq.symm
  set A := (sortedImportanceAgg agg nq).toFinset with hAdef
  set B := (sortedImportanceTopn topn nq).toFinset with hBdef
  have hcardA : A.card = nq := by
    rw [hAdef]
    show (agg.take nq).toFinset.card = nq
    rw [List.toFinset_card_of_nodup ((List.take_sublist _ _).nodup hA), List.length_take]
    omega
  have hcardB : B.card = nq := by
    rw [hBdef]
    show (topn.take nq).toFinset.card = nq
    rw [List.toFinset_card_of_nodup ((List.take_sublist _ _).nodup hT), List.length_take]
    omega
  have hunion : allQs agg topn nq = A ∪ B := by
    rw [allQs, List.toFinset_append]
  have hsub : nq ≤ (A ∪ B).card := by
    have hc : A.card ≤ (A ∪ B).card := Finset.card_le_card Finset.subset_union_left
    omega
  have hdiff : consistencyDiff agg topn nq = (A ∪ B).card - nq := by
    rw [consistencyDiff, hunion]
    omega
  refine ⟨?_, ?_, ?_⟩
  · have h1 : (A \ B).card + B.card = (A ∪ B).card := Finset.card_sdiff_add_card A B
    have h2 : (B \ A).card + A.card = (B ∪ A).card := Finset.card_sdiff_add_card B A
    rw [Finset.union_comm B A] at h2
    have h4 : ((A \ B) ∪ (B \ A)).card = (A \ B).card + (B \ A).card :=
      Finset.card_union_of_disjoint disjoint_sdiff_sdiff
    rw [hdiff, h4]
    omega
  · rw [hdiff]
    constructor
    · intro h
      have hu : (A ∪ B).card = nq := by omega
      have hA' : A = A ∪ B :=
        Finset.eq_of_subset_of_card_le Finset.subset_union_left
          (le_of_eq (by rw [hu, hcardA]))
      have hB' : B = A ∪ B :=
        Finset.eq_of_subset_of_card_le Finset.subset_union_right
          (le_of_eq (by rw [hu, hcardB]))
      exact hA'.trans hB'.symm
    · intro h
      have hu : A ∪ B = A := by
        rw [← h]
        exact Finset.union_self A
      rw [hu, hcardA]
      omega
  · rw [consistencyFrac]
    ring

theorem consistency_report_half_symm_diff_witness :
    (([0, 1, 2] : List Nat).Nodup) ∧ (([0, 1, 2] : List Nat).Perm [1, 0, 2]) ∧
    (2 ≤ ([0, 1, 2] : List Nat).length) ∧
    (2 * consistencyDiff ([0, 1, 2] : List Nat) [1, 0, 2] 2
        = (((sortedImportanceAgg ([0, 1, 2] : List Nat) 2).toFinset
              \ (sortedImportanceTopn ([1, 0, 2] : List Nat) 2).toFinset)
            ∪ ((sortedImportanceTopn ([1, 0, 2] : List Nat) 2).toFinset
              \ (sortedImportanceAgg ([0, 1, 2] : List Nat) 2).toFinset)).card ∧
      (consistencyDiff ([0, 1, 2] : List Nat) [1, 0, 2] 2 = 0 ↔
        (sortedImportanceAgg ([0, 1, 2] : List Nat) 2).toFinset
          = (sortedImportanceTopn ([1, 0, 2] : List Nat) 2).toFinset) ∧
      consistencyFrac ([0, 1, 2] : List Nat) [1, 0, 2] 2
        = (consistencyDiff ([0, 1, 2] : List Nat) [1, 0, 2] 2 : ℚ) / (2 : ℚ) * 100) :=
  ⟨by decide, by decide, by decide,
    consistency_report_half_symm_diff [0, 1, 2] [1, 0, 2] 2
      (by decide) (by decide) (by decide)⟩

/-- C5 counterexample: with 2 features and `number_of_questions = 3` the
ranking engine returns normally instead of failing. -/
theorem ranking_engine_returns_on_large_top_n :
    (calculateFeatureImportance ([0, 1] : List Nat) [1, 0] 3).isSome = true := by
  rw [calculateFeatureImportance, fusedOrder_eq_some (by decide) (by decide)]
  rfl

/-- C5 amended: the code performs no fail-fast validation: a `top_n`
exceeding the number of features does not make the ranking engine fail;
both top slices silently truncate to the full orderings and the returned
triple equals the one produced with `top_n` equal to the number of
features (empty-input failures arise only downstream, inside classifier
fitting or final table concatenation, not before fitting work begins). -/
theorem ranking_engine_truncates_large_top_n {α : Type} [DecidableEq α] [Inhabited α]
    (agg topn : List α) (nq : Nat) (hA : agg.Nodup) (hP : agg.Perm topn)
    (hq : agg.length ≤ nq) :
    calculateFeatureImportance agg topn nq
        = calculateFeatureImportance agg topn agg.length ∧
    (calculateFeatureImportance agg topn nq).isSome = true ∧
    sortedImportanceAgg agg nq = agg ∧
    sortedImportanceTopn topn nq = topn := by
  refine ⟨rfl, ?_, ?_, ?_⟩
  · rw [calculateFeatureImportance, fusedOrder_eq_some hA hP]
    rfl
  · exact List.take_of_length_le hq
  · apply List.take_of_length_le
    rw [← hP.length_eq]
    exact hq

theorem ranking_engine_truncates_large_top_n_witness :
    (([0, 1] : List Nat).Nodup) ∧ (([0, 1] : List Nat).Perm [1, 0]) ∧
    (([0, 1] : List Nat).length ≤ 5) ∧
    (calculateFeatureImportance ([0, 1] : List Nat) [1, 0] 5
        = calculateFeatureImportance ([0, 1] : List Nat) [1, 0]
            ([0, 1] : List Nat).length ∧
      (calculateFeatureImportance ([0, 1] : List Nat) [1, 0] 5).isSome = true ∧
      sortedImportanceAgg ([0, 1] : List Nat) 5 = [0, 1] ∧
      sortedImportanceTopn ([1, 0] : List Nat) 5 = [1, 0]) :=
  ⟨by decide, by decide, by decide,
    ranking_engine_truncates_large_top_n [0, 1] [1, 0] 5
      (by decide) (by decide) (by decide)⟩

end SurveySubsampling
